import Mathlib

/-!
Shallow embedding of the SolidityAddressMapper core
(`src/solidity_address_mapper/mapper.py`, `src/solidity_address_mapper/reconstructor.py`,
and the legacy AST locator in `src/mapper.py`), together with proofs about the
behaviour of the embedded operations.

Machine integers are modelled as `Int`/`Nat` (Python integers are unbounded, so no
wrap-around is involved).  Python exceptions are modelled with `Except`, carrying
either a structured error (`MapErr`) or the raised message string.
-/

namespace SolMap

/-- Error kinds raised (as Python `ValueError`s) by the algorithmic core.
Each constructor carries the data interpolated into the Python message. -/
inductive MapErr where
  | negativePC
  | emptyBytecode
  | invalidHex
  | outOfRange (pc : Nat) (paddedLen : Nat)
  | srcmapIndexOutOfBounds (idx : Nat) (entryCount : Nat)
  | intParse (s : String)
  | missingField (field : String) (idx : Nat)
  | noContainingNode (offset : Int)
deriving DecidableEq, Repr

/-! ## Bytecode disassembly
Embedding of `Mapper._instruction_index_from_hex_address`
(src/solidity_address_mapper/mapper.py lines 251-312). -/

/-- Operand length claimed by an opcode byte: `op - 0x5f` for PUSH1..PUSH32
(`0x60 <= op <= 0x7f`), `0` for every other byte.  This is the
`push_data_bytes = current_op - 0x5f` computation of the Python loop. -/
def pushLen (op : Nat) : Nat :=
  if 0x60 ≤ op ∧ op ≤ 0x7f then op - 0x5f else 0

/-- One hex digit, as accepted by Python `bytes.fromhex`. -/
def hexDigit (c : Char) : Option Nat :=
  if '0' ≤ c ∧ c ≤ '9' then some (c.toNat - '0'.toNat)
  else if 'a' ≤ c ∧ c ≤ 'f' then some (c.toNat - 'a'.toNat + 10)
  else if 'A' ≤ c ∧ c ≤ 'F' then some (c.toNat - 'A'.toNat + 10)
  else none

/-- Model of Python `bytes.fromhex`: pairs of hex digits, failing on an odd
number of digits or a non-hex character.  (CPython additionally ignores ASCII
spaces between pairs; the repository never feeds it spaced input.) -/
def bytesFromHex : List Char → Option (List Nat)
  | [] => some []
  | [_] => none
  | c1 :: c2 :: rest => do
      let hi ← hexDigit c1
      let lo ← hexDigit c2
      let bs ← bytesFromHex rest
      pure ((hi * 16 + lo) :: bs)

/-- The `for current_pc, current_op in enumerate(bytecode_bytes)` loop of
`_instruction_index_from_hex_address`.  State: current position `cur`, the
instruction counter `idx` (started at `-1`, pre-increment semantics), the
remaining PUSH operand bytes `pd`, and `pad` (`bytecode_length_with_padding`).
The loop `break`s once the position just processed equals `pc`; the final
`(instruction_index, bytecode_length_with_padding)` pair is returned. -/
def disasmLoop (pc : Nat) : List Nat → Nat → Int → Nat → Nat → Int × Nat
  | [], _, idx, _, pad => (idx, pad)
  | op :: rest, cur, idx, pd, pad =>
    if 0 < pd then
      if cur = pc then (idx, pad)
      else disasmLoop pc rest (cur + 1) idx (pd - 1) pad
    else
      let idx1 := idx + 1
      let grown := pad + 1 + pushLen op
      if cur = pc then (idx1, grown)
      else disasmLoop pc rest (cur + 1) idx1 (pushLen op) grown

/-- Body of `_instruction_index_from_hex_address` after hex decoding: the
`pc == 0` early return, the walk, and the `pc > bytecode_length_with_padding`
range check. -/
def instructionIndexCore (bytecodeBytes : List Nat) (pc : Nat) : Except MapErr Int :=
  if pc = 0 then .ok 0
  else
    let r := disasmLoop pc bytecodeBytes 0 (-1) 0 0
    if r.2 < pc then .error (.outOfRange pc r.2) else .ok r.1

/-- `bytecode[2:] if bytecode.startswith("0x") else bytecode`, at the level of
the string's character list. -/
def stripHex : List Char → List Char
  | '0' :: 'x' :: rest => rest
  | cs => cs

/-- `Mapper._instruction_index_from_hex_address(pc, bytecode)`:
negative-PC check, empty check, `0x` strip, hex decode, then the walk. -/
def instructionIndexFromHexAddress (pc : Int) (bytecode : String) : Except MapErr Int :=
  if pc < 0 then .error .negativePC
  else if bytecode = "" then .error .emptyBytecode
  else
    match bytesFromHex (stripHex bytecode.data) with
    | none => .error .invalidHex
    | some bs => instructionIndexCore bs pc.toNat

/-! Specification-side counting functions for the walk.  `countS bs pd n` is
the number of instruction-start positions among the first `n` positions of
`bs` when `pd` operand bytes are still pending, `padS` the padded length
contributed by those positions, and `pdAfter` the pending-operand count left
after them. -/

/-- Number of instruction starts among the first `n` bytes, given `pd` pending
operand bytes. -/
def countS : List Nat → Nat → Nat → Nat
  | _, _, 0 => 0
  | [], _, _ + 1 => 0
  | op :: rest, pd, n + 1 =>
    if 0 < pd then countS rest (pd - 1) n
    else 1 + countS rest (pushLen op) n

/-- Padded length contributed by the first `n` bytes (each instruction start
contributes `1 + pushLen op`). -/
def padS : List Nat → Nat → Nat → Nat
  | _, _, 0 => 0
  | [], _, _ + 1 => 0
  | op :: rest, pd, n + 1 =>
    if 0 < pd then padS rest (pd - 1) n
    else 1 + pushLen op + padS rest (pushLen op) n

/-- Pending operand bytes after processing the first `n` bytes. -/
def pdAfter : List Nat → Nat → Nat → Nat
  | _, pd, 0 => pd
  | [], pd, _ + 1 => pd
  | op :: rest, pd, n + 1 =>
    if 0 < pd then pdAfter rest (pd - 1) n
    else pdAfter rest (pushLen op) n

/-- Total padded bytecode length: the instruction bytes plus the implied
zero-padded operand bytes of a truncated trailing PUSH. -/
def paddedLen (bs : List Nat) : Nat := padS bs 0 bs.length

theorem disasmLoop_eq (bs : List Nat) : ∀ (pc cur : Nat) (idx : Int) (pd pad : Nat),
    cur ≤ pc →
    disasmLoop pc bs cur idx pd pad =
      (idx + countS bs pd (min (pc - cur + 1) bs.length),
       pad + padS bs pd (min (pc - cur + 1) bs.length)) := by
  induction bs with
  | nil =>
    intro pc cur idx pd pad _
    simp [disasmLoop, countS, padS]
  | cons op rest ih =>
    intro pc cur idx pd pad hcur
    rcases eq_or_lt_of_le hcur with heq | hlt
    · subst heq
      have hmin : min (cur - cur + 1) (rest.length + 1) = 1 := by omega
      by_cases hpd : 0 < pd
      · simp [disasmLoop, hpd, List.length_cons, hmin, countS, padS]
      · simp [disasmLoop, hpd, List.length_cons, hmin, countS, padS]
        omega
    · have hne : cur ≠ pc := by omega
      have hstep : cur + 1 ≤ pc := hlt
      have hmin : min (pc - cur + 1) (rest.length + 1)
          = min (pc - (cur + 1) + 1) rest.length + 1 := by omega
      by_cases hpd : 0 < pd
      · simp only [disasmLoop, if_pos hpd, if_neg hne]
        rw [ih pc (cur + 1) idx (pd - 1) pad hstep]
        simp only [List.length_cons, hmin, countS, padS, if_pos hpd]
      · simp only [disasmLoop, if_neg hpd, if_neg hne]
        rw [ih pc (cur + 1) (idx + 1) (pushLen op) (pad + 1 + pushLen op) hstep]
        simp only [List.length_cons, hmin, countS, padS, if_neg hpd, Prod.mk.injEq]
        constructor
        · push_cast; ring
        · omega

theorem padS_ge (bs : List Nat) : ∀ (pd n : Nat), n ≤ bs.length → n ≤ pd + padS bs pd n := by
  induction bs with
  | nil => intro pd n h; simp at h; simp [h, padS]
  | cons op rest ih =>
    intro pd n h
    cases n with
    | zero => simp
    | succ m =>
      simp only [List.length_cons, Nat.succ_le_succ_iff] at h
      by_cases hpd : 0 < pd
      · have := ih (pd - 1) m h
        simp only [padS, if_pos hpd]
        omega
      · have hrec := ih (pushLen op) m h
        simp only [padS, if_neg hpd]
        omega

theorem countS_mono (bs : List Nat) : ∀ (pd n m : Nat), n ≤ m → countS bs pd n ≤ countS bs pd m := by
  induction bs with
  | nil =>
    intro pd n m _
    cases n <;> cases m <;> simp [countS]
  | cons op rest ih =>
    intro pd n m hnm
    cases n with
    | zero => simp [countS]
    | succ n1 =>
      cases m with
      | zero => omega
      | succ m1 =>
        have h1 : n1 ≤ m1 := by omega
        by_cases hpd : 0 < pd
        · simpa [countS, hpd] using ih (pd - 1) n1 m1 h1
        · simpa [countS, hpd] using ih (pushLen op) n1 m1 h1

theorem padS_mono (bs : List Nat) : ∀ (pd n m : Nat), n ≤ m → padS bs pd n ≤ padS bs pd m := by
  induction bs with
  | nil =>
    intro pd n m _
    cases n <;> cases m <;> simp [padS]
  | cons op rest ih =>
    intro pd n m hnm
    cases n with
    | zero => simp [padS]
    | succ n1 =>
      cases m with
      | zero => omega
      | succ m1 =>
        have h1 : n1 ≤ m1 := by omega
        by_cases hpd : 0 < pd
        · simpa [padS, hpd] using ih (pd - 1) n1 m1 h1
        · simp only [padS, if_neg hpd]
          exact Nat.add_le_add_left (ih (pushLen op) n1 m1 h1) (1 + pushLen op)

/-- For a PC inside the bytecode, the walk returns
`countS bytecode 0 (pc+1) - 1` (pre-increment semantics) and never reports
out-of-range. -/
theorem instructionIndexCore_lt (bs : List Nat) (pc : Nat) (h : pc < bs.length) :
    instructionIndexCore bs pc = .ok ((countS bs 0 (pc + 1) : Int) - 1) := by
  by_cases h0 : pc = 0
  · subst h0
    cases bs with
    | nil => simp at h
    | cons op rest => simp [instructionIndexCore, countS]
  · have hmin : min (pc - 0 + 1) bs.length = pc + 1 := by omega
    have hpad : pc + 1 ≤ padS bs 0 (pc + 1) := by
      have := padS_ge bs 0 (pc + 1) (by omega)
      omega
    simp only [instructionIndexCore, if_neg h0]
    rw [disasmLoop_eq bs pc 0 (-1) 0 0 (by omega)]
    simp only [hmin]
    rw [if_neg (by omega)]
    congr 1

/-- For a PC at or beyond the raw bytecode length the walk runs to completion:
it errors out iff `pc` exceeds the total padded length, and otherwise returns
the index of the last instruction. -/
theorem instructionIndexCore_ge (bs : List Nat) (pc : Nat)
    (h : bs.length ≤ pc) (h0 : pc ≠ 0) :
    instructionIndexCore bs pc =
      if paddedLen bs < pc then .error (.outOfRange pc (paddedLen bs))
      else .ok ((countS bs 0 bs.length : Int) - 1) := by
  have hmin : min (pc - 0 + 1) bs.length = bs.length := by omega
  simp only [instructionIndexCore, if_neg h0]
  rw [disasmLoop_eq bs pc 0 (-1) 0 0 (by omega)]
  simp only [hmin, paddedLen, Nat.zero_add]
  by_cases hc : padS bs 0 bs.length < pc
  · rw [if_pos hc, if_pos hc]
  · rw [if_neg hc, if_neg hc]
    congr 1

theorem countS_nil (pd n : Nat) : countS [] pd n = 0 := by cases n <;> rfl

theorem padS_nil (pd n : Nat) : padS [] pd n = 0 := by cases n <;> rfl

theorem pdAfter_nil (pd n : Nat) : pdAfter [] pd n = pd := by cases n <;> rfl

theorem countS_add (bs : List Nat) : ∀ (pd m j : Nat),
    countS bs pd (m + j) = countS bs pd m + countS (bs.drop m) (pdAfter bs pd m) j := by
  induction bs with
  | nil => intro pd m j; simp [countS_nil, pdAfter_nil]
  | cons op rest ih =>
    intro pd m j
    cases m with
    | zero => simp [countS, pdAfter]
    | succ m1 =>
      have harr : m1 + 1 + j = (m1 + j) + 1 := by omega
      rw [harr]
      by_cases hpd : 0 < pd
      · simp only [countS, pdAfter, if_pos hpd, List.drop_succ_cons]
        exact ih (pd - 1) m1 j
      · simp only [countS, pdAfter, if_neg hpd, List.drop_succ_cons]
        rw [ih (pushLen op) m1 j]
        omega

theorem padS_add (bs : List Nat) : ∀ (pd m j : Nat),
    padS bs pd (m + j) = padS bs pd m + padS (bs.drop m) (pdAfter bs pd m) j := by
  induction bs with
  | nil => intro pd m j; simp [padS_nil, pdAfter_nil]
  | cons op rest ih =>
    intro pd m j
    cases m with
    | zero => simp [padS, pdAfter]
    | succ m1 =>
      have harr : m1 + 1 + j = (m1 + j) + 1 := by omega
      rw [harr]
      by_cases hpd : 0 < pd
      · simp only [padS, pdAfter, if_pos hpd, List.drop_succ_cons]
        exact ih (pd - 1) m1 j
      · simp only [padS, pdAfter, if_neg hpd, List.drop_succ_cons]
        rw [ih (pushLen op) m1 j]
        omega

theorem pdAfter_add (bs : List Nat) : ∀ (pd m j : Nat),
    pdAfter bs pd (m + j) = pdAfter (bs.drop m) (pdAfter bs pd m) j := by
  induction bs with
  | nil => intro pd m j; simp [pdAfter_nil]
  | cons op rest ih =>
    intro pd m j
    cases m with
    | zero => simp [pdAfter]
    | succ m1 =>
      have harr : m1 + 1 + j = (m1 + j) + 1 := by omega
      rw [harr]
      by_cases hpd : 0 < pd
      · simp only [pdAfter, if_pos hpd, List.drop_succ_cons]
        exact ih (pd - 1) m1 j
      · simp only [pdAfter, if_neg hpd, List.drop_succ_cons]
        exact ih (pushLen op) m1 j

theorem countS_zero_of_le (bs : List Nat) : ∀ (pd k : Nat), k ≤ pd → countS bs pd k = 0 := by
  induction bs with
  | nil => intro pd k _; exact countS_nil pd k
  | cons op rest ih =>
    intro pd k hk
    cases k with
    | zero => rfl
    | succ k1 =>
      have hpd : 0 < pd := by omega
      simp only [countS, if_pos hpd]
      exact ih (pd - 1) k1 (by omega)

/-- Splitting off the byte at a start position: the pending-operand counter
after position `pc` equals the operand length of the byte at `pc`. -/
theorem pdAfter_succ_start (bs : List Nat) (pc op : Nat)
    (hget : bs.get? pc = some op) (hpd : pdAfter bs 0 pc = 0) :
    pdAfter bs 0 (pc + 1) = pushLen op := by
  rw [List.get?_eq_getElem?] at hget
  rcases List.getElem?_eq_some.mp hget with ⟨hlt, hv⟩
  have hdrop : bs.drop pc = op :: bs.drop (pc + 1) := by
    rw [List.drop_eq_getElem_cons hlt, hv]
  rw [pdAfter_add bs 0 pc 1, hpd, hdrop]
  simp [pdAfter]

/-- A start position with a PUSH byte forces the padded length to cover the
whole operand. -/
theorem paddedLen_lower (bs : List Nat) (pc op : Nat)
    (hget : bs.get? pc = some op) (hpd : pdAfter bs 0 pc = 0) :
    pc + 1 + pushLen op ≤ paddedLen bs := by
  rw [List.get?_eq_getElem?] at hget
  rcases List.getElem?_eq_some.mp hget with ⟨hlt, hv⟩
  have hdrop : bs.drop pc = op :: bs.drop (pc + 1) := by
    rw [List.drop_eq_getElem_cons hlt, hv]
  have h1 : padS bs 0 (pc + 1) = padS bs 0 pc + (1 + pushLen op) := by
    rw [padS_add bs 0 pc 1, hpd, hdrop]
    simp [padS]
  have h2 : pc ≤ padS bs 0 pc := by
    have := padS_ge bs 0 pc (by omega)
    omega
  have h3 : padS bs 0 (pc + 1) ≤ paddedLen bs :=
    padS_mono bs 0 (pc + 1) bs.length (by omega)
  omega

theorem length_le_paddedLen (bs : List Nat) : bs.length ≤ paddedLen bs := by
  have := padS_ge bs 0 bs.length (le_refl _)
  simpa [paddedLen] using this

/-- Bridge from the hex-string wrapper to the byte-level core: for a
non-negative PC and successfully decoded bytecode they agree. -/
theorem wrapper_eq_core (s : String) (bs : List Nat) (n : Nat)
    (hs : s ≠ "") (hdec : bytesFromHex (stripHex s.data) = some bs) :
    instructionIndexFromHexAddress (n : Int) s = instructionIndexCore bs n := by
  have hneg : ¬ ((n : Int) < 0) := Int.not_lt.mpr (Int.natCast_nonneg n)
  simp only [instructionIndexFromHexAddress, if_neg hneg, if_neg hs, hdec, Int.toNat_natCast]

/-- At a PC inside the operand span of a PUSH whose start byte is at `pc`,
the core returns the PUSH instruction's own index. -/
theorem instructionIndexCore_push_const (bs : List Nat) (pc k op : Nat)
    (hget : bs.get? pc = some op) (hpd : pdAfter bs 0 pc = 0)
    (hk : k ≤ pushLen op) :
    instructionIndexCore bs (pc + k) = .ok ((countS bs 0 (pc + 1) : Int) - 1) := by
  have hlt : pc < bs.length := by
    have hg := hget
    rw [List.get?_eq_getElem?] at hg
    rcases List.getElem?_eq_some.mp hg with ⟨h, _⟩
    exact h
  have hnext : pdAfter bs 0 (pc + 1) = pushLen op := pdAfter_succ_start bs pc op hget hpd
  by_cases hin : pc + k < bs.length
  · rw [instructionIndexCore_lt bs (pc + k) hin]
    have hzero : countS (bs.drop (pc + 1)) (pdAfter bs 0 (pc + 1)) k = 0 := by
      rw [hnext]
      exact countS_zero_of_le _ _ _ hk
    have hc : countS bs 0 (pc + k + 1) = countS bs 0 (pc + 1) := by
      have harr : pc + k + 1 = (pc + 1) + k := by omega
      rw [harr, countS_add bs 0 (pc + 1) k, hzero]
      omega
    rw [hc]

  · have hge : bs.length ≤ pc + k := by omega
    have hne0 : pc + k ≠ 0 := by omega
    have hk1 : 1 ≤ k := by omega
    have hpad : pc + 1 + pushLen op ≤ paddedLen bs := paddedLen_lower bs pc op hget hpd
    rw [instructionIndexCore_ge bs (pc + k) hge hne0, if_neg (by omega)]
    have hzero : countS (bs.drop (pc + 1)) (pdAfter bs 0 (pc + 1)) (bs.length - (pc + 1)) = 0 := by
      rw [hnext]
      exact countS_zero_of_le _ _ _ (by omega)
    have hc : countS bs 0 bs.length = countS bs 0 (pc + 1) := by
      conv_lhs => rw [show bs.length = (pc + 1) + (bs.length - (pc + 1)) by omega]
      rw [countS_add bs 0 (pc + 1) _, hzero]
      omega
    rw [hc]

/-- C3 (as amended): with valid hex bytecode, the disassembler fails with an
out-of-range error reporting the effective padded length exactly when the PC
STRICTLY exceeds the total padded bytecode length; for a PC less than or equal
to the padded length it returns an instruction index. -/
theorem instructionIndexFromHexAddress_out_of_range :
    ∀ (s : String) (bs : List Nat) (pc : Nat),
      s ≠ "" → bytesFromHex (stripHex s.data) = some bs →
      (paddedLen bs < pc →
        instructionIndexFromHexAddress (pc : Int) s =
          .error (.outOfRange pc (paddedLen bs))) ∧
      (pc ≤ paddedLen bs →
        ∃ i : Int, instructionIndexFromHexAddress (pc : Int) s = .ok i) := by
  intro s bs pc hs hdec
  rw [wrapper_eq_core s bs pc hs hdec]
  constructor
  · intro hover
    have hlen : bs.length ≤ pc := by
      have := length_le_paddedLen bs
      omega
    rw [instructionIndexCore_ge bs pc hlen (by omega), if_pos hover]
  · intro hle
    by_cases h0 : pc = 0
    · subst h0
      exact ⟨0, by simp [instructionIndexCore]⟩
    by_cases hin : pc < bs.length
    · exact ⟨_, instructionIndexCore_lt bs pc hin⟩
    · rw [instructionIndexCore_ge bs pc (by omega) h0, if_neg (by omega)]
      exact ⟨_, rfl⟩

/-- C3 counterexample: for bytecode `"6080604052"` the padded length is 5, and
at `pc = 5` (equal to the padded length) the function returns index 2 instead
of failing as the claim requires. -/
theorem C3_ctr_pc_eq_paddedLen :
    paddedLen [0x60, 0x80, 0x60, 0x40, 0x52] = 5 ∧
    bytesFromHex (stripHex "6080604052".data) = some [0x60, 0x80, 0x60, 0x40, 0x52] ∧
    instructionIndexFromHexAddress 5 "6080604052" = .ok 2 := by
  refine ⟨rfl, rfl, rfl⟩

/-- C5: on bytecode `"6080604052"` (PUSH1 0x80, PUSH1 0x40, MSTORE) the
disassembler maps pc 0 to 0, pc 1 to 0 (inside the first PUSH operand),
pc 2 to 1, pc 3 to 1 (inside the second PUSH operand) and pc 4 to 2. -/
theorem C5_scenario_6080604052 :
    instructionIndexFromHexAddress 0 "6080604052" = .ok 0 ∧
    instructionIndexFromHexAddress 1 "6080604052" = .ok 0 ∧
    instructionIndexFromHexAddress 2 "6080604052" = .ok 1 ∧
    instructionIndexFromHexAddress 3 "6080604052" = .ok 1 ∧
    instructionIndexFromHexAddress 4 "6080604052" = .ok 2 := by
  refine ⟨rfl, rfl, rfl, rfl, rfl⟩

/-- C6: for valid hex bytecode the returned instruction index is monotonically
non-decreasing in the PC over `[0, bytecodeLength)`, and for a PC at the start
byte of a PUSH instruction the index equals the index at `pc + k` for every
`k` up to the operand length. -/
theorem C6_monotone_and_push_const :
    (∀ (s : String) (bs : List Nat) (pc1 pc2 : Nat),
        s ≠ "" → bytesFromHex (stripHex s.data) = some bs →
        pc1 ≤ pc2 → pc2 < bs.length →
        ∃ i1 i2 : Int,
          instructionIndexFromHexAddress (pc1 : Int) s = .ok i1 ∧
          instructionIndexFromHexAddress (pc2 : Int) s = .ok i2 ∧ i1 ≤ i2) ∧
    (∀ (s : String) (bs : List Nat) (pc op k : Nat),
        s ≠ "" → bytesFromHex (stripHex s.data) = some bs →
        bs.get? pc = some op → pdAfter bs 0 pc = 0 →
        0x60 ≤ op → op ≤ 0x7f → k ≤ pushLen op →
        instructionIndexFromHexAddress ((pc + k : Nat) : Int) s =
          instructionIndexFromHexAddress (pc : Int) s) := by
  constructor
  · intro s bs pc1 pc2 hs hdec h12 h2
    rw [wrapper_eq_core s bs pc1 hs hdec, wrapper_eq_core s bs pc2 hs hdec,
      instructionIndexCore_lt bs pc1 (by omega), instructionIndexCore_lt bs pc2 h2]
    refine ⟨_, _, rfl, rfl, ?_⟩
    have := countS_mono bs 0 (pc1 + 1) (pc2 + 1) (by omega)
    omega
  · intro s bs pc op k hs hdec hget hpd h60 h7f hk
    rw [wrapper_eq_core s bs (pc + k) hs hdec, wrapper_eq_core s bs pc hs hdec,
      instructionIndexCore_push_const bs pc k op hget hpd hk]
    have h0 := instructionIndexCore_push_const bs pc 0 op hget hpd (by omega)
    rw [Nat.add_zero] at h0
    rw [h0]

/-- Witness for C6 at bytecode `"6080604052"`: monotonicity between pc 1 and
pc 4, and constancy across the second PUSH (start byte at pc 2, operand at
pc 3). -/
theorem C6_witness :
    (∃ i1 i2 : Int,
        instructionIndexFromHexAddress ((1 : Nat) : Int) "6080604052" = .ok i1 ∧
        instructionIndexFromHexAddress ((4 : Nat) : Int) "6080604052" = .ok i2 ∧
        i1 ≤ i2) ∧
    instructionIndexFromHexAddress ((2 + 1 : Nat) : Int) "6080604052" =
      instructionIndexFromHexAddress ((2 : Nat) : Int) "6080604052" := by
  constructor
  · exact C6_monotone_and_push_const.1 "6080604052" [0x60, 0x80, 0x60, 0x40, 0x52]
      1 4 (by decide) rfl (by omega) (by decide)
  · exact C6_monotone_and_push_const.2 "6080604052" [0x60, 0x80, 0x60, 0x40, 0x52]
      2 0x60 1 (by decide) rfl (by decide) (by decide) (by decide) (by decide) (by decide)

/-- Witness for C3 (amended) at bytecode `"60"` (truncated trailing PUSH1,
padded length 2): pc 3 fails with the padded length, pc 2 still succeeds. -/
theorem C3_witness :
    instructionIndexFromHexAddress ((3 : Nat) : Int) "60" =
      .error (.outOfRange 3 (paddedLen [0x60])) ∧
    (∃ i : Int, instructionIndexFromHexAddress ((2 : Nat) : Int) "60" = .ok i) := by
  constructor
  · exact (instructionIndexFromHexAddress_out_of_range "60" [0x60] 3
      (by decide) rfl).1 (by decide)
  · exact (instructionIndexFromHexAddress_out_of_range "60" [0x60] 2
      (by decide) rfl).2 (by decide)

/-! ## Source-map decompression
Embedding of `Mapper._instruction_from_instruction_index`
(src/solidity_address_mapper/mapper.py lines 314-419). -/

/-- Model of Python `str.split(sep)` for a one-character separator: keeps empty
chunks and returns `[""]` on the empty string. -/
def splitOnChar (sep : Char) : List Char → List (List Char)
  | [] => [[]]
  | c :: rest =>
    match splitOnChar sep rest with
    | [] => [[]]
    | g :: gs => if c = sep then [] :: g :: gs else (c :: g) :: gs

/-- Digit run of a Python `int()` literal (base 10). -/
def digitsToNatAux : List Char → Nat → Option Nat
  | [], acc => some acc
  | c :: rest, acc =>
    if '0' ≤ c ∧ c ≤ '9' then digitsToNatAux rest (acc * 10 + (c.toNat - '0'.toNat))
    else none

def digitsToNat : List Char → Option Nat
  | [] => none
  | ds => digitsToNatAux ds 0

/-- Python whitespace stripped by `int()`. -/
def isPySpace (c : Char) : Bool :=
  c = ' ' ∨ c = '\t' ∨ c = '\n' ∨ c = '\r' ∨ c = '\x0b' ∨ c = '\x0c'

/-- Model of CPython `int(s)` (base 10): optional surrounding whitespace, an
optional sign, then decimal digits (digit-group underscores are not modelled;
the compiler-produced source maps never contain them). -/
def pyInt (cs : List Char) : Option Int :=
  let t := ((cs.dropWhile isPySpace).reverse.dropWhile isPySpace).reverse
  match t with
  | '-' :: ds => (digitsToNat ds).map (fun n => -(n : Int))
  | '+' :: ds => (digitsToNat ds).map (fun n => (n : Int))
  | ds => (digitsToNat ds).map (fun n => (n : Int))

/-- The mutable `result` dictionary of `_instruction_from_instruction_index`:
five optional fields; a field is "still in `remaining`" iff it is `none`. -/
structure SrcEntry where
  offset : Option Int
  length : Option Int
  file_id : Option Int
  jump : Option String
  modifiers : Option Int
deriving DecidableEq, Repr

def emptySrcEntry : SrcEntry := ⟨none, none, none, none, none⟩

/-- The fully resolved source-map entry returned on success.  `jump` and
`modifiers` stay optional (`None` in Python). -/
structure ResolvedEntry where
  offset : Int
  length : Int
  file_id : Int
  jump : Option String
  modifiers : Option Int
deriving DecidableEq, Repr

/-- One `if 'field' in remaining and len(parts) > i and parts[i] != ''` update
for an integer-valued field: parse the component with `int(...)` (a Python
`ValueError` on garbage) and mark the field resolved. -/
def updateIntField (cur : Option Int) (inBounds : Bool) (raw : List Char) :
    Except MapErr (Option Int) :=
  if cur = none ∧ inBounds = true ∧ raw ≠ [] then
    match pyInt raw with
    | none => .error (.intParse (String.mk raw))
    | some v => .ok (some v)
  else .ok cur

/-- Processing of one source-map entry inside the backward loop: empty entries
are skipped, otherwise the entry is split on `':'` and each still-unresolved
field is taken from its non-empty positional component. -/
def applyEntry (entry : List Char) (r : SrcEntry) : Except MapErr SrcEntry :=
  if entry = [] then .ok r
  else
    let parts := splitOnChar ':' entry
    match updateIntField r.offset (decide (0 < parts.length)) (parts.getD 0 []) with
    | .error e => .error e
    | .ok o =>
      match updateIntField r.length (decide (1 < parts.length)) (parts.getD 1 []) with
      | .error e => .error e
      | .ok l =>
        match updateIntField r.file_id (decide (2 < parts.length)) (parts.getD 2 []) with
        | .error e => .error e
        | .ok f =>
          let j := if r.jump = none ∧ 3 < parts.length ∧ parts.getD 3 [] ≠ []
            then some (String.mk (parts.getD 3 [])) else r.jump
          match updateIntField r.modifiers (decide (4 < parts.length)) (parts.getD 4 []) with
          | .error e => .error e
          | .ok m => .ok ⟨o, l, f, j, m⟩

/-- `not remaining`: every field resolved, triggering the early `break`. -/
def fullyResolved (r : SrcEntry) : Bool :=
  r.offset.isSome && r.length.isSome && r.file_id.isSome &&
    r.jump.isSome && r.modifiers.isSome

/-- The `for i in range(instruction_index, -1, -1)` backward scan. -/
def scanBack (entries : List (List Char)) : Nat → SrcEntry → Except MapErr SrcEntry
  | 0, r => applyEntry (entries.getD 0 []) r
  | i + 1, r =>
    match applyEntry (entries.getD (i + 1) []) r with
    | .error e => .error e
    | .ok r1 => if fullyResolved r1 then .ok r1 else scanBack entries i r1

def numEntries (srcmap : String) : Nat := (splitOnChar ';' srcmap.data).length

/-- `Mapper._instruction_from_instruction_index(srcmap, instruction_index)`:
bounds check against the entry count, backward scan, mandatory-field checks
(`file_id`, then `offset`, then `length`; unresolved `jump`/`modifiers` only
produce an INFO print, which is a no-op here), then the resolved entry. -/
def instructionFromInstructionIndex (srcmap : String) (instruction_index : Nat) :
    Except MapErr ResolvedEntry :=
  let entries := splitOnChar ';' srcmap.data
  if entries.length ≤ instruction_index then
    .error (.srcmapIndexOutOfBounds instruction_index entries.length)
  else
    match scanBack entries instruction_index emptySrcEntry with
    | .error e => .error e
    | .ok r =>
      match r.file_id with
      | none => .error (.missingField "file_id" instruction_index)
      | some f =>
        match r.offset with
        | none => .error (.missingField "offset" instruction_index)
        | some o =>
          match r.length with
          | none => .error (.missingField "length" instruction_index)
          | some l => .ok ⟨o, l, f, r.jump, r.modifiers⟩

theorem updateIntField_err (cur : Option Int) (b : Bool) (raw : List Char) (e : MapErr)
    (h : updateIntField cur b raw = .error e) : ∃ s, e = .intParse s := by
  unfold updateIntField at h
  split at h
  · cases hp : pyInt raw with
    | none => rw [hp] at h; exact ⟨_, (Except.error.injEq _ _).mp h.symm⟩
    | some v => rw [hp] at h; cases h
  · cases h

theorem applyEntry_err (entry : List Char) (r : SrcEntry) (e : MapErr)
    (h : applyEntry entry r = .error e) : ∃ s, e = .intParse s := by
  unfold applyEntry at h
  split at h
  · cases h
  · dsimp only at h
    cases h1 : updateIntField r.offset (decide (0 < (splitOnChar ':' entry).length))
        ((splitOnChar ':' entry).getD 0 []) with
    | error e1 =>
      rw [h1] at h
      cases h
      exact updateIntField_err _ _ _ _ h1
    | ok o =>
      rw [h1] at h
      cases h2 : updateIntField r.length (decide (1 < (splitOnChar ':' entry).length))
          ((splitOnChar ':' entry).getD 1 []) with
      | error e2 =>
        rw [h2] at h
        cases h
        exact updateIntField_err _ _ _ _ h2
      | ok l =>
        rw [h2] at h
        cases h3 : updateIntField r.file_id (decide (2 < (splitOnChar ':' entry).length))
            ((splitOnChar ':' entry).getD 2 []) with
        | error e3 =>
          rw [h3] at h
          cases h
          exact updateIntField_err _ _ _ _ h3
        | ok f =>
          rw [h3] at h
          cases h4 : updateIntField r.modifiers (decide (4 < (splitOnChar ':' entry).length))
              ((splitOnChar ':' entry).getD 4 []) with
          | error e4 =>
            rw [h4] at h
            cases h
            exact updateIntField_err _ _ _ _ h4
          | ok m =>
            rw [h4] at h
            cases h

theorem scanBack_err (entries : List (List Char)) :
    ∀ (i : Nat) (r : SrcEntry) (e : MapErr),
      scanBack entries i r = .error e → ∃ s, e = .intParse s := by
  intro i
  induction i with
  | zero =>
    intro r e h
    exact applyEntry_err _ _ _ h
  | succ n ih =>
    intro r e h
    unfold scanBack at h
    cases h1 : applyEntry (entries.getD (n + 1) []) r with
    | error e1 =>
      rw [h1] at h
      cases h
      exact applyEntry_err _ _ _ h1
    | ok r1 =>
      rw [h1] at h
      dsimp only at h
      by_cases hf : fullyResolved r1 = true
      · rw [if_pos hf] at h; cases h
      · rw [if_neg hf] at h
        exact ih r1 e h

/-- C7: an instruction index at or beyond the number of `;`-separated entries
fails with the index-out-of-bounds error naming the entry count; an index
within bounds never produces that error kind. -/
theorem C7_index_bounds :
    ∀ (srcmap : String) (idx : Nat),
      (numEntries srcmap ≤ idx →
        instructionFromInstructionIndex srcmap idx =
          .error (.srcmapIndexOutOfBounds idx (numEntries srcmap))) ∧
      (idx < numEntries srcmap →
        ∀ j n : Nat, instructionFromInstructionIndex srcmap idx ≠
          .error (.srcmapIndexOutOfBounds j n)) := by
  intro srcmap idx
  constructor
  · intro hge
    have hge2 : (splitOnChar ';' srcmap.data).length ≤ idx := hge
    unfold instructionFromInstructionIndex
    dsimp only
    rw [if_pos hge2]
    rfl
  · intro hlt j n hcontra
    have hlt2 : ¬ (splitOnChar ';' srcmap.data).length ≤ idx := Nat.not_le.mpr hlt
    unfold instructionFromInstructionIndex at hcontra
    dsimp only at hcontra
    rw [if_neg hlt2] at hcontra
    cases hs : scanBack (splitOnChar ';' srcmap.data) idx emptySrcEntry with
    | error e =>
      rw [hs] at hcontra
      dsimp only at hcontra
      rcases scanBack_err _ _ _ _ hs with ⟨s, hsx⟩
      subst hsx
      simp at hcontra
    | ok r =>
      rw [hs] at hcontra
      dsimp only at hcontra
      cases hf : r.file_id with
      | none => rw [hf] at hcontra; simp at hcontra
      | some f =>
        rw [hf] at hcontra
        dsimp only at hcontra
        cases ho : r.offset with
        | none => rw [ho] at hcontra; simp at hcontra
        | some o =>
          rw [ho] at hcontra
          dsimp only at hcontra
          cases hl : r.length with
          | none => rw [hl] at hcontra; simp at hcontra
          | some l => rw [hl] at hcontra; simp at hcontra

/-- Witness for C7: source map `";"` has 2 entries, so index 2 fails naming
the count, while the in-bounds index 1 of `"10:5:0;;20:3:1"` never produces
that error kind. -/
theorem C7_witness :
    instructionFromInstructionIndex ";" 2 = .error (.srcmapIndexOutOfBounds 2 2) ∧
    instructionFromInstructionIndex "10:5:0;;20:3:1" 1 ≠
      .error (.srcmapIndexOutOfBounds 1 3) := by
  constructor
  · exact (C7_index_bounds ";" 2).1 (by decide)
  · exact (C7_index_bounds "10:5:0;;20:3:1" 1).2 (by decide) 1 3

/-- C4: `jump` and `modifiers` are optional — whenever the backward scan
resolves `offset`, `length` and `file_id`, the call succeeds and simply passes
the (possibly still-`none`) `jump`/`modifiers` through; in particular source
map `"10:5:0;;20:3:1"` at instruction index 1 resolves to offset 10, length 5,
file id 0 with `jump` and `modifiers` unresolved. -/
theorem C4_optional_jump_modifiers :
    (∀ (srcmap : String) (idx : Nat) (r : SrcEntry) (o l f : Int),
        idx < numEntries srcmap →
        scanBack (splitOnChar ';' srcmap.data) idx emptySrcEntry = .ok r →
        r.offset = some o → r.length = some l → r.file_id = some f →
        instructionFromInstructionIndex srcmap idx =
          .ok ⟨o, l, f, r.jump, r.modifiers⟩) ∧
    instructionFromInstructionIndex "10:5:0;;20:3:1" 1 = .ok ⟨10, 5, 0, none, none⟩ := by
  constructor
  · intro srcmap idx r o l f hlt hscan ho hl hf
    have hlt2 : ¬ (splitOnChar ';' srcmap.data).length ≤ idx := Nat.not_le.mpr hlt
    unfold instructionFromInstructionIndex
    dsimp only
    rw [if_neg hlt2, hscan]
    dsimp only
    rw [hf, ho, hl]
  · rfl

/-- Witness for C4 at the scenario input, with every hypothesis discharged by
evaluation of the backward scan. -/
theorem C4_witness :
    instructionFromInstructionIndex "10:5:0;;20:3:1" 1 =
      .ok ⟨10, 5, 0, none, none⟩ :=
  C4_optional_jump_modifiers.1 "10:5:0;;20:3:1" 1
    ⟨some 10, some 5, some 0, none, none⟩ 10 5 0 (by decide) rfl rfl rfl rfl

/-! ## Literal-source snippet extraction
Embedding of `Mapper._read_snippet_from_string`
(src/solidity_address_mapper/mapper.py lines 225-249). -/

/-- Clamped index of a Python slice bound (negative indices count from the
end, results are clamped to `[0, len]`). -/
def pyBound (len : Nat) (i : Int) : Nat :=
  if i < 0 then (max ((len : Int) + i) 0).toNat else min i.toNat len

/-- Model of the Python slice `cs[a:b]` on a string's character list. -/
def pySlice (cs : List Char) (a b : Int) : List Char :=
  (cs.take (pyBound cs.length b)).drop (pyBound cs.length a)

/-- Result of `_read_snippet_from_string`: the extracted code and the 1-based
line number. -/
structure Snippet where
  code : List Char
  line : Nat
deriving DecidableEq, Repr

/-- `_read_snippet_from_string(string_content, start, length)`:
`newline_count = string_content[:start].count('\n')`,
`snippet = string_content[start : start + length]`, and the returned line is
`newline_count + 1`. -/
def readSnippetFromString (content : List Char) (start length : Int) : Snippet :=
  { code := pySlice content start (start + length),
    line := (pySlice content 0 start).count '\n' + 1 }

theorem count_take_eq_filter_range (cs : List Char) (c : Char) :
    ∀ n : Nat, (cs.take n).count c =
      ((List.range n).filter (fun j => cs.get? j = some c)).length := by
  induction cs with
  | nil =>
    intro n
    have hnil : ∀ j, (([] : List Char).get? j = some c) = False := by
      intro j
      simp
    simp [List.take_nil, List.count_nil, List.filter_eq_nil_iff]
  | cons d rest ih =>
    intro n
    cases n with
    | zero => simp
    | succ m =>
      rw [List.take_succ_cons, List.count_cons, List.range_succ_eq_map,
        List.filter_cons, List.filter_map]
      have hcomp : ((fun j => decide ((d :: rest).get? j = some c)) ∘ Nat.succ)
          = fun j => decide (rest.get? j = some c) := by
        funext j
        simp
      rw [hcomp]
      by_cases hd : d = c
      · subst hd
        simp [ih m]
      · have hd2 : ((d :: rest).get? 0 = some c) = False := by
          simp [hd]
        simp [hd, hd2, ih m]

theorem pyBound_natCast (len n : Nat) : pyBound len (n : Int) = min n len := by
  unfold pyBound
  rw [if_neg (by omega)]
  simp

theorem pyBound_zero (len : Nat) : pyBound len 0 = 0 := by
  unfold pyBound
  rw [if_neg (by omega)]
  simp

/-- C8: on the literal-source path the returned code is exactly the
characters of the text at positions `offset ≤ j < offset + length` (so its
length is `min length (textLength - offset)`), and the returned line is one
plus the number of newline characters strictly preceding `offset`. -/
theorem C8_literal_snippet :
    ∀ (content : List Char) (start len : Nat),
      (readSnippetFromString content (start : Int) (len : Int)).code.length
          = min len (content.length - start) ∧
      (∀ i : Nat,
        i < (readSnippetFromString content (start : Int) (len : Int)).code.length →
        (readSnippetFromString content (start : Int) (len : Int)).code.get? i
          = content.get? (start + i)) ∧
      (readSnippetFromString content (start : Int) (len : Int)).line
          = 1 + ((List.range start).filter (fun j => content.get? j = some '\n')).length := by
  intro content start len
  have hsum : ((start : Int) + (len : Int)) = ((start + len : Nat) : Int) := by push_cast; ring
  have hcode : (readSnippetFromString content (start : Int) (len : Int)).code
      = (content.take (min (start + len) content.length)).drop (min start content.length) := by
    unfold readSnippetFromString pySlice
    rw [hsum, pyBound_natCast, pyBound_natCast]
  refine ⟨?_, ?_, ?_⟩
  · rw [hcode]
    simp only [List.length_drop, List.length_take]
    omega
  · intro i hi
    rw [hcode] at hi ⊢
    simp only [List.length_drop, List.length_take] at hi
    rw [List.get?_drop]
    rw [List.get?_take (by omega)]
    congr 1
    omega
  · have hps : pySlice content 0 ((start : Nat) : Int) = content.take start := by
      unfold pySlice
      rw [pyBound_zero, pyBound_natCast, List.drop_zero]
      exact List.take_eq_take.mpr (by omega)
    unfold readSnippetFromString
    simp only
    rw [hps, count_take_eq_filter_range content '\n' start]
    omega

/-- Witness for C8 on text `"ab\ncd"` with offset 3, length 2: the snippet is
read off the original text and the line is the 1-based line of the offset. -/
theorem C8_witness :
    (readSnippetFromString ['a', 'b', '\n', 'c', 'd'] ((3 : Nat) : Int) ((2 : Nat) : Int)).code.get? 0
        = ['a', 'b', '\n', 'c', 'd'].get? (3 + 0) ∧
    (readSnippetFromString ['a', 'b', '\n', 'c', 'd'] ((3 : Nat) : Int) ((2 : Nat) : Int)).line
        = 1 + ((List.range 3).filter
            (fun j => ['a', 'b', '\n', 'c', 'd'].get? j = some '\n')).length :=
  ⟨(C8_literal_snippet ['a', 'b', '\n', 'c', 'd'] 3 2).2.1 0 (by decide),
   (C8_literal_snippet ['a', 'b', '\n', 'c', 'd'] 3 2).2.2⟩

/-! ## AST-based source reconstruction: node-type dispatch
Embedding of `SolidityASTReconstructor.reconstruct`
(src/solidity_address_mapper/reconstructor.py lines 1-85). -/

/-- The view of an AST node that the `reconstruct` dispatcher consumes: a
mapping whose `nodeType` key may be absent.  The further node attributes are
only read by the individual handlers, which stay abstract here. -/
structure RNode where
  nodeType : Option String
deriving DecidableEq, Repr

/-- The keys of the `self._handlers` dictionary built in
`SolidityASTReconstructor.__init__` (reconstructor.py lines 4-73). -/
def recognizedNodeTypes : List String :=
  ["ArrayTypeName", "Assignment", "BinaryOperation", "Block", "Break",
   "Conditional", "Continue", "ContractDefinition", "DoWhileStatement",
   "ElementaryTypeName", "ElementaryTypeNameExpression", "EmitStatement",
   "EnumDefinition", "EnumValue", "ErrorDefinition", "EventDefinition",
   "ExpressionStatement", "ForStatement", "FunctionCall", "FunctionCallOptions",
   "FunctionDefinition", "FunctionTypeName", "Identifier", "IdentifierPath",
   "IfStatement", "ImportDirective", "IndexAccess", "IndexRangeAccess",
   "InheritanceSpecifier", "InlineAssembly", "Literal", "Mapping",
   "MemberAccess", "ModifierDefinition", "ModifierInvocation", "NewExpression",
   "OverrideSpecifier", "ParameterList", "PlaceHolderStatement",
   "PragmaDirective", "Return", "RevertStatement", "SourceUnit",
   "StorageLayoutSpecifier", "StructDefinition", "StructuredDocumentation",
   "TryCatchClause", "TryStatement", "TupleExpression", "TypeDescriptions",
   "UnaryOperation", "UncheckedBlock", "UserDefinedTypeName",
   "UserDefinedValueTypeDefinition", "UsingForDirective", "VariableDeclaration",
   "VariableDeclarationStatement", "WhileStatement", "YulAssignment",
   "YulBlock", "YulBreak", "YulLeave", "YulLiteralHexValue", "YulLiteralValue",
   "YulSwitch", "YulTypedName", "YulVariableDeclaration"]

/-- `SolidityASTReconstructor.reconstruct(node)` for mapping-shaped nodes,
parametrised by the handler table (handlers may themselves raise, hence
`Except`): `node_type = node.get('nodeType'); if not node_type: return ''`
(this catches both a missing key and the empty string, which is falsy in
Python); then dispatch, falling back to the `"<unhandled {node_type}>"`
placeholder when the table has no handler for the tag. -/
def reconstructDispatch (handlers : String → Option (RNode → Except String String))
    (node : RNode) : Except String String :=
  match node.nodeType with
  | none => .ok ""
  | some t =>
    if t = "" then .ok ""
    else
      match handlers t with
      | some h => h node
      | none => .ok ("<unhandled " ++ t ++ ">")

/-- A concrete handler table with the real key set and trivial handler bodies;
the dispatcher never invokes a handler on the unrecognized-type path, so the
bodies are irrelevant to the claims below. -/
def trivialHandlers : String → Option (RNode → Except String String) :=
  fun t => if t ∈ recognizedNodeTypes then some (fun _ => .ok "") else none

/-- C9 (as amended): for every handler table whose domain is exactly the
recognized node types, a node whose `nodeType` is a NON-EMPTY string outside
that set yields the visible `"<unhandled ...>"` placeholder and never a raised
error. -/
theorem reconstruct_unhandled_placeholder :
    ∀ (handlers : String → Option (RNode → Except String String)) (node : RNode)
      (t : String),
      (∀ s, (handlers s).isSome ↔ s ∈ recognizedNodeTypes) →
      node.nodeType = some t → t ∉ recognizedNodeTypes → t ≠ "" →
      reconstructDispatch handlers node = .ok ("<unhandled " ++ t ++ ">") := by
  intro handlers node t hdom hnt hmem hne
  unfold reconstructDispatch
  rw [hnt]
  dsimp only
  rw [if_neg hne]
  have hnone : handlers t = none := by
    cases hh : handlers t with
    | none => rfl
    | some h =>
      exact absurd ((hdom t).mp (by simp [hh])) hmem
  rw [hnone]

/-- C9 counterexample: the empty-string node type is not a recognized variant,
yet `reconstruct` returns `''` (the falsy-`node_type` early return on
reconstructor.py line 80-81), not a placeholder of the form
`"<unhandled ...>"`. -/
theorem C9_ctr_empty_nodeType :
    ("" ∈ recognizedNodeTypes) = False ∧
    reconstructDispatch trivialHandlers ⟨some ""⟩ = .ok "" ∧
    reconstructDispatch trivialHandlers ⟨some ""⟩ ≠ .ok ("<unhandled " ++ "" ++ ">") := by
  refine ⟨by decide, rfl, ?_⟩
  intro h
  rw [show reconstructDispatch trivialHandlers ⟨some ""⟩ = .ok "" from rfl] at h
  injection h with h2
  exact absurd h2 (by decide)

/-- Witness for C9 (amended) at the unknown tag `"SomeFutureNode"` with the
real key set. -/
theorem C9_witness :
    reconstructDispatch trivialHandlers ⟨some "SomeFutureNode"⟩ =
      .ok ("<unhandled " ++ "SomeFutureNode" ++ ">") :=
  reconstruct_unhandled_placeholder trivialHandlers ⟨some "SomeFutureNode"⟩
    "SomeFutureNode"
    (fun s => by
      constructor
      · intro hs
        by_cases h : s ∈ recognizedNodeTypes
        · exact h
        · simp [trivialHandlers, h] at hs
      · intro h
        simp [trivialHandlers, h])
    rfl (by decide) (by decide)

/-! ## AST location resolution
Embedding of `Mapper._ast_node_from_instruction` (legacy copy src/mapper.py
lines 419-500; the recursive `search_node` walker with the
`best_match`/`smallest_range` state).

An AST node carries its `nodeType` tag, the parsed `src` triple
`(offset, length, file_id)` when the mapping has a `src` key, and the child
nodes in the order the Python `node.items()` iteration visits them (nested
mappings, and elements of nested sequences, flattened in place).  `ASTList`
is the child sequence; the mutual inductive keeps every function below
structurally recursive. -/

mutual
inductive ASTNode where
  | mk (nodeType : String) (src : Option (Int × Int × Int)) (children : ASTList)
inductive ASTList where
  | nil
  | cons (hd : ASTNode) (tl : ASTList)
end

def ASTNode.nodeType : ASTNode → String
  | .mk ty _ _ => ty

def ASTNode.src : ASTNode → Option (Int × Int × Int)
  | .mk _ s _ => s

/-- The target source location resolved from the source map. -/
structure Target where
  offset : Int
  length : Int
  file_id : Int
deriving DecidableEq, Repr

/-- The `contains_target` test of `search_node`:
`node_file_id == target.file_id and node_offset <= target.offset and
node_offset + node_length >= target.offset + max(target.length, 1)`. -/
def containsTarget (t : Target) (o l f : Int) : Bool :=
  decide (f = t.file_id) && decide (o ≤ t.offset) &&
    decide (t.offset + max t.length 1 ≤ o + l)

/-- `node_length < smallest_range`, where `none` is the initial
`float('inf')`. -/
def smallerThan (acc : Option (ASTNode × Int)) (l : Int) : Bool :=
  match acc with
  | none => true
  | some q => decide (l < q.2)

/-- The `best_match`/`smallest_range` update of `search_node`: a node with a
`src` triple replaces the best match iff it contains the target and its length
is strictly below the current smallest range. -/
def updateBest (t : Target) (n : ASTNode) (acc : Option (ASTNode × Int)) :
    Option (ASTNode × Int) :=
  match n.src with
  | none => acc
  | some (o, l, f) =>
    if containsTarget t o l f && smallerThan acc l then some (n, l) else acc

/-! The recursive `search_node`: check the node itself, then keep searching
every child (never short-circuiting), threading the best-match state;
`searchChildren` is the `for key, value in node.items()` loop. -/
mutual
def searchNode (t : Target) : ASTNode → Option (ASTNode × Int) → Option (ASTNode × Int)
  | .mk ty src cs, acc => searchChildren t cs (updateBest t (.mk ty src cs) acc)
def searchChildren (t : Target) : ASTList → Option (ASTNode × Int) → Option (ASTNode × Int)
  | .nil, acc => acc
  | .cons c cs, acc => searchChildren t cs (searchNode t c acc)
end

/-- `Mapper._ast_node_from_instruction`: run the search from the root and fail
with the "no containing node" error when nothing matched. -/
def findSmallestContaining (root : ASTNode) (t : Target) : Except MapErr ASTNode :=
  match searchNode t root none with
  | none => .error (.noContainingNode t.offset)
  | some p => .ok p.1

/-! Depth-first pre-order visit sequence of the tree, i.e. the order in which
`search_node` examines nodes. -/
mutual
def preorder : ASTNode → List ASTNode
  | .mk ty src cs => .mk ty src cs :: preorderChildren cs
def preorderChildren : ASTList → List ASTNode
  | .nil => []
  | .cons c cs => preorder c ++ preorderChildren cs
end

/-- The node's length when it qualifies (has a `src` triple containing the
target), `none` otherwise. -/
def qualKey (t : Target) (n : ASTNode) : Option Int :=
  match n.src with
  | none => none
  | some (o, l, f) => if containsTarget t o l f = true then some l else none

/-- The qualifying nodes, paired with their lengths, in visit order. -/
def qualList (root : ASTNode) (t : Target) : List (ASTNode × Int) :=
  (preorder root).filterMap (fun n => (qualKey t n).map (fun l => (n, l)))

/-- The best-match update restricted to qualifying nodes. -/
def bestStep (acc : Option (ASTNode × Int)) (p : ASTNode × Int) :
    Option (ASTNode × Int) :=
  match acc with
  | none => some p
  | some q => if p.2 < q.2 then some p else some q

theorem somePair_inj {a b : ASTNode} {k s : Int}
    (h : (some (a, k) : Option (ASTNode × Int)) = some (b, s)) : a = b ∧ k = s := by
  injection h with h2
  exact ⟨congrArg Prod.fst h2, congrArg Prod.snd h2⟩

theorem updateBest_qualKey (t : Target) (n : ASTNode) (acc : Option (ASTNode × Int)) :
    updateBest t n acc =
      match qualKey t n with
      | none => acc
      | some l => bestStep acc (n, l) := by
  unfold updateBest qualKey
  cases hs : n.src with
  | none => rfl
  | some trip =>
    obtain ⟨o, l, f⟩ := trip
    dsimp only
    by_cases hc : containsTarget t o l f = true
    · cases acc with
      | none => simp [hc, smallerThan, bestStep]
      | some q =>
        by_cases hl : l < q.2
        · simp [hc, smallerThan, bestStep, hl]
        · simp [hc, smallerThan, bestStep, hl]
    · simp [hc, smallerThan]

mutual
theorem searchNode_foldl (t : Target) (n : ASTNode) (acc : Option (ASTNode × Int)) :
    searchNode t n acc = (preorder n).foldl (fun a m => updateBest t m a) acc := by
  cases n with
  | mk ty src cs =>
    rw [searchNode, preorder, List.foldl_cons]
    exact searchChildren_foldl t cs (updateBest t (.mk ty src cs) acc)
theorem searchChildren_foldl (t : Target) (cs : ASTList) (acc : Option (ASTNode × Int)) :
    searchChildren t cs acc =
      (preorderChildren cs).foldl (fun a m => updateBest t m a) acc := by
  cases cs with
  | nil => rw [searchChildren, preorderChildren]; rfl
  | cons c cs2 =>
    rw [searchChildren, preorderChildren, List.foldl_append,
      ← searchNode_foldl t c acc]
    exact searchChildren_foldl t cs2 (searchNode t c acc)
end

theorem foldl_updateBest_filterMap (t : Target) :
    ∀ (L : List ASTNode) (acc : Option (ASTNode × Int)),
      L.foldl (fun a m => updateBest t m a) acc =
        (L.filterMap (fun n => (qualKey t n).map (fun l => (n, l)))).foldl bestStep acc := by
  intro L
  induction L with
  | nil => intro acc; rfl
  | cons n rest ih =>
    intro acc
    rw [List.foldl_cons, List.filterMap_cons]
    cases hq : qualKey t n with
    | none =>
      rw [ih]
      congr 1
      rw [updateBest_qualKey, hq]
    | some l =>
      dsimp only [Option.map]
      rw [List.foldl_cons, ih]
      congr 1
      rw [updateBest_qualKey, hq]

/-- Folding the strict-improvement update over a list from some accumulator
keeps the FIRST element attaining the minimum key: either nothing changed (and
the accumulator key bounds every element), or the result splits the list
around the first minimum. -/
theorem foldl_bestStep_char :
    ∀ (Q : List (ASTNode × Int)) (acc : Option (ASTNode × Int)),
      (List.foldl bestStep acc Q = acc ∧
        ∀ p ∈ Q, ∃ b s, acc = some (b, s) ∧ s ≤ p.2) ∨
      (∃ n l Q1 Q2, Q = Q1 ++ (n, l) :: Q2 ∧
        List.foldl bestStep acc Q = some (n, l) ∧
        (∀ p ∈ Q1, l < p.2) ∧ (∀ p ∈ Q2, l ≤ p.2) ∧
        (∀ b s, acc = some (b, s) → l < s)) := by
  intro Q
  induction Q with
  | nil =>
    intro acc
    left
    exact ⟨rfl, by intro p hp; exact absurd hp (List.not_mem_nil p)⟩
  | cons mk0 rest ih =>
    intro acc
    obtain ⟨m, k⟩ := mk0
    cases acc with
    | none =>
      have hstep : List.foldl bestStep none ((m, k) :: rest)
          = List.foldl bestStep (some (m, k)) rest := rfl
      rcases ih (some (m, k)) with ⟨hfold, hall⟩ | ⟨n, l, R1, R2, hsplit, hfold, h1, h2, hacc⟩
      · right
        refine ⟨m, k, [], rest, rfl, by rw [hstep, hfold], ?_, ?_, ?_⟩
        · intro p hp
          exact absurd hp (List.not_mem_nil p)
        · intro p hp
          rcases hall p hp with ⟨b, s, hbs, hle⟩
          obtain ⟨hb, hs⟩ := somePair_inj hbs
          omega
        · intro b s hbs
          cases hbs
      · right
        refine ⟨n, l, (m, k) :: R1, R2, by simp [hsplit], by rw [hstep, hfold], ?_, h2, ?_⟩
        · intro p hp
          rcases List.mem_cons.mp hp with hp | hp
          · subst hp
            exact hacc m k rfl
          · exact h1 p hp
        · intro b s hbs
          cases hbs
    | some q =>
      obtain ⟨b0, s0⟩ := q
      by_cases hks : k < s0
      · have hstep : List.foldl bestStep (some (b0, s0)) ((m, k) :: rest)
            = List.foldl bestStep (some (m, k)) rest := by
          simp [List.foldl_cons, bestStep, hks]
        rcases ih (some (m, k)) with ⟨hfold, hall⟩ | ⟨n, l, R1, R2, hsplit, hfold, h1, h2, hacc⟩
        · right
          refine ⟨m, k, [], rest, rfl, by rw [hstep, hfold], ?_, ?_, ?_⟩
          · intro p hp
            exact absurd hp (List.not_mem_nil p)
          · intro p hp
            rcases hall p hp with ⟨b, s, hbs, hle⟩
            obtain ⟨hb, hs⟩ := somePair_inj hbs
            omega
          · intro b s hbs
            obtain ⟨hb, hs⟩ := somePair_inj hbs
            omega
        · right
          have hlk : l < k := hacc m k rfl
          refine ⟨n, l, (m, k) :: R1, R2, by simp [hsplit], by rw [hstep, hfold], ?_, h2, ?_⟩
          · intro p hp
            rcases List.mem_cons.mp hp with hp | hp
            · subst hp
              exact hlk
            · exact h1 p hp
          · intro b s hbs
            obtain ⟨hb, hs⟩ := somePair_inj hbs
            omega
      · have hstep : List.foldl bestStep (some (b0, s0)) ((m, k) :: rest)
            = List.foldl bestStep (some (b0, s0)) rest := by
          simp [List.foldl_cons, bestStep, hks]
        rcases ih (some (b0, s0)) with ⟨hfold, hall⟩ | ⟨n, l, R1, R2, hsplit, hfold, h1, h2, hacc⟩
        · left
          refine ⟨by rw [hstep, hfold], ?_⟩
          intro p hp
          rcases List.mem_cons.mp hp with hp | hp
          · subst hp
            exact ⟨b0, s0, rfl, by omega⟩
          · exact hall p hp
        · right
          have hls : l < s0 := hacc b0 s0 rfl
          refine ⟨n, l, (m, k) :: R1, R2, by simp [hsplit], by rw [hstep, hfold], ?_, h2, hacc⟩
          intro p hp
          rcases List.mem_cons.mp hp with hp | hp
          · subst hp
            omega
          · exact h1 p hp

theorem qualKey_some (t : Target) (n : ASTNode) (l : Int)
    (h : qualKey t n = some l) :
    ∃ o f, n.src = some (o, l, f) ∧ containsTarget t o l f = true := by
  unfold qualKey at h
  cases hs : n.src with
  | none => rw [hs] at h; cases h
  | some trip =>
    obtain ⟨o, l2, f⟩ := trip
    rw [hs] at h
    dsimp only at h
    by_cases hc : containsTarget t o l2 f = true
    · rw [if_pos hc] at h
      injection h with h2
      subst h2
      exact ⟨o, f, rfl, hc⟩
    · rw [if_neg hc] at h
      cases h

/-- The Block/ExpressionStatement scenario fixture. -/
def exampleExprStmt : ASTNode := .mk "ExpressionStatement" (some (40, 10, 0)) .nil

def exampleAst : ASTNode := .mk "Block" (some (0, 100, 0)) (.cons exampleExprStmt .nil)

def exampleTarget : Target := ⟨42, 2, 0⟩

/-- C1: when the locator returns a node, that node's `src` triple matches the
target's file id and contains the target range (with a zero-length target
widened to length 1); among the qualifying nodes in depth-first pre-order the
returned node is the first one of minimal length (all earlier qualifying nodes
are strictly longer, all later ones at least as long).  On the scenario AST —
a Block `0:100:0` containing an ExpressionStatement `40:10:0`, target
`{offset 42, length 2, file 0}` — it returns the ExpressionStatement, not the
Block. -/
theorem C1_ast_locator :
    (∀ (root : ASTNode) (t : Target) (n : ASTNode),
        findSmallestContaining root t = .ok n →
        ∃ (o l f : Int) (Q1 Q2 : List (ASTNode × Int)),
          n.src = some (o, l, f) ∧
          f = t.file_id ∧ o ≤ t.offset ∧
          t.offset + max t.length 1 ≤ o + l ∧
          qualList root t = Q1 ++ (n, l) :: Q2 ∧
          (∀ p ∈ Q1, l < p.2) ∧ (∀ p ∈ Q2, l ≤ p.2)) ∧
    findSmallestContaining exampleAst exampleTarget = .ok exampleExprStmt := by
  constructor
  · intro root t n hfind
    unfold findSmallestContaining at hfind
    have hsearch : searchNode t root none = List.foldl bestStep none (qualList root t) := by
      rw [searchNode_foldl, foldl_updateBest_filterMap]
      rfl
    rcases foldl_bestStep_char (qualList root t) none with
      ⟨hfold, _⟩ | ⟨n2, l, Q1, Q2, hsplit, hfold, h1, h2, _⟩
    · rw [hsearch, hfold] at hfind
      cases hfind
    · rw [hsearch, hfold] at hfind
      dsimp only at hfind
      injection hfind with hn
      subst hn
      have hmem : (n2, l) ∈ qualList root t := by
        rw [hsplit]
        exact List.mem_append.mpr (Or.inr (List.mem_cons_self _ _))
      have hkey : qualKey t n2 = some l := by
        unfold qualList at hmem
        rcases List.mem_filterMap.mp hmem with ⟨m, _, hmap⟩
        cases hq : qualKey t m with
        | none => rw [hq] at hmap; cases hmap
        | some l2 =>
          rw [hq] at hmap
          injection hmap with hpair
          have hm : m = n2 := congrArg Prod.fst hpair
          have hl : l2 = l := congrArg Prod.snd hpair
          subst hm
          subst hl
          exact hq
      rcases qualKey_some t n2 l hkey with ⟨o, f, hsrc, hcont⟩
      have hcont2 := hcont
      unfold containsTarget at hcont2
      simp only [Bool.and_eq_true, decide_eq_true_eq] at hcont2
      exact ⟨o, l, f, Q1, Q2, hsrc, hcont2.1.1, hcont2.1.2, hcont2.2, hsplit, h1, h2⟩
  · rfl

/-- Witness for C1 at the scenario fixture, discharging the hypothesis with
the scenario conjunct itself. -/
theorem C1_witness :
    ∃ (o l f : Int) (Q1 Q2 : List (ASTNode × Int)),
      exampleExprStmt.src = some (o, l, f) ∧
      f = exampleTarget.file_id ∧ o ≤ exampleTarget.offset ∧
      exampleTarget.offset + max exampleTarget.length 1 ≤ o + l ∧
      qualList exampleAst exampleTarget = Q1 ++ (exampleExprStmt, l) :: Q2 ∧
      (∀ p ∈ Q1, l < p.2) ∧ (∀ p ∈ Q2, l ≤ p.2) :=
  C1_ast_locator.1 exampleAst exampleTarget exampleExprStmt C1_ast_locator.2

/-! ## Orchestration: `Mapper.map_hex_address`
Embedding of src/solidity_address_mapper/mapper.py lines 53-180.  The JSON
container accesses (`os.path.isfile`, `_contract_key_for_contract_name`,
`_read_from_json_file`, `_read_from_json_string`) are external collaborators;
they are abstracted as an environment whose fields carry either the value the
call would produce or the message of the exception it would raise.  All the
algorithmic steps between them are the embedded functions above. -/

structure Env where
  jsonPath : String
  fileExists : Bool
  contractNode : Except String String
  metadataJson : Except String Unit
  compilerVersion : Except String String
  binRuntime : Except String String
  srcmapRuntime : Except String String
  sources : Except String (List (String × Int))
  metaSources : Except String (List (String × Option (List Char)))

/-- The value returned to the caller: file, code snippet (or error message),
1-based line (0 when no line is available). -/
structure MapperResult where
  file : String
  code : String
  line : Nat
deriving DecidableEq, Repr

/-- The Python message text of each structured error. -/
def errMsg : MapErr → String
  | .negativePC => "PC value must be a positive integer"
  | .emptyBytecode => "Bytecode cannot be empty"
  | .invalidHex => "Bytecode must be a valid hex string with an even number of characters"
  | .outOfRange pc pad =>
      s!"PC value {pc} is greater than the length of the bytecode {pad}"
  | .srcmapIndexOutOfBounds idx cnt =>
      s!"Invalid instruction index {idx}. Source map contains {cnt} entries."
  | .intParse raw => "invalid literal for int() with base 10: \x27" ++ raw ++ "\x27"
  | .missingField fieldName idx =>
      s!"Could not find {fieldName} for instruction index {idx}. There is an issue with the source map."
  | .noContainingNode off => s!"Could not find node for instruction at offset {off} in AST"

/-- Hex-digit run of `int(s, 16)`. -/
def hexDigitsAux : List Char → Nat → Option Nat
  | [], acc => some acc
  | c :: rest, acc =>
    match hexDigit c with
    | some d => hexDigitsAux rest (acc * 16 + d)
    | none => none

/-- Model of CPython `int(s, 16)`: surrounding whitespace, an optional sign,
an optional `0x`/`0X` prefix, then at least one hex digit. -/
def pyIntHex (s : String) : Option Int :=
  let t := ((s.data.dropWhile isPySpace).reverse.dropWhile isPySpace).reverse
  let signed : Int × List Char :=
    match t with
    | '-' :: rest => (-1, rest)
    | '+' :: rest => (1, rest)
    | _ => (1, t)
  let t3 : List Char :=
    match signed.2 with
    | '0' :: 'x' :: rest => rest
    | '0' :: 'X' :: rest => rest
    | _ => signed.2
  match t3 with
  | [] => none
  | ds => (hexDigitsAux ds 0).map (fun v => signed.1 * v)

/-- `Mapper._source_code_from_instruction` (lines 139-180): find the source
name whose id matches the resolved `file_id` (a `StopIteration` there becomes
the compiler-internal-file `ValueError`), look it up in the metadata sources
(an uncaught `StopIteration` there has an empty message), demand literal
content, then slice it with `_read_snippet_from_string`. -/
def sourceCodeFromInstruction (env : Env) (instruction : ResolvedEntry) :
    Except String MapperResult :=
  match env.sources with
  | .error msg => .error msg
  | .ok sources =>
    match sources.find? (fun p => p.2 == instruction.file_id) with
    | none => .error ("The address references a compiler-internal file (file id: " ++
        toString instruction.file_id ++ ") and cannot be mapped to the source code.")
    | some source =>
      match env.metaSources with
      | .error msg => .error msg
      | .ok metaSources =>
        match metaSources.find? (fun p => p.1 == source.1) with
        | none => .error ""
        | some msrc =>
          match msrc.2 with
          | none => .error ("The metadata of source \x27" ++ source.1 ++
              "\x27 doesnt include the source code. Did you set useLiteralContent true?")
          | some content =>
            let snippet := readSnippetFromString content instruction.offset instruction.length
            .ok ⟨source.1, String.mk snippet.code, snippet.line⟩

/-- The `try:` body of `Mapper.map_hex_address` (lines 87-135), with the inner
`try/except ValueError` around `_instruction_from_instruction_index` that
returns `MapperResult(contract_node, str(ex), 0)` instead of raising.  The
`print` warnings (file-name/contract-name clash, old compiler version) are
no-ops.  `instruction_index.toNat` is exact: the index is an `int >= 0` here
(the walk only returns `-1` for empty bytecode, which has already failed). -/
def mapHexAddressBody (env : Env) (address_hex contract_name : String) :
    Except String MapperResult :=
  if env.fileExists = false then
    .error ("compiler_output_json not found: " ++ env.jsonPath)
  else
    match pyIntHex address_hex with
    | none => .error ("invalid literal for int() with base 16: \x27" ++ address_hex ++ "\x27")
    | some address_dec =>
      match env.contractNode with
      | .error msg => .error msg
      | .ok contract_node =>
        match env.metadataJson with
        | .error msg => .error msg
        | .ok _ =>
          match env.compilerVersion with
          | .error msg => .error msg
          | .ok _ =>
            match env.binRuntime with
            | .error msg => .error msg
            | .ok bin_runtime =>
              match instructionIndexFromHexAddress address_dec bin_runtime with
              | .error e => .error (errMsg e)
              | .ok instruction_index =>
                if instruction_index = 0 then
                  .error ("Could not find instruction for index 0 in deployedBytecode.object." ++
                    "This may happen for an invalid hex address.")
                else
                  match env.srcmapRuntime with
                  | .error msg => .error msg
                  | .ok srcmap_runtime =>
                    match instructionFromInstructionIndex srcmap_runtime instruction_index.toNat with
                    | .error e => .ok ⟨contract_node, errMsg e, 0⟩
                    | .ok instruction =>
                      if instruction.file_id = -1 then
                        .error ("instruction is not associated with any particular source file. " ++
                          "This may happen for bytecode sections stemming from compiler-generated inline assembly statements.")
                      else
                        sourceCodeFromInstruction env instruction

/-- `Mapper.map_hex_address`: the body wrapped in
`except Exception as ex: return MapperResult(contract_name, str(ex), 0)`. -/
def mapHexAddress (env : Env) (address_hex contract_name : String) : MapperResult :=
  match mapHexAddressBody env address_hex contract_name with
  | .ok r => r
  | .error msg => ⟨contract_name, msg, 0⟩

/-- C10: the caller always receives a `MapperResult`; any exception of the
body is caught and surfaced with the contract name, the exception message as
`code`, and `line = 0`; the inner source-map resolution failure is likewise
surfaced, with the contract node as `file`. -/
theorem C10_always_mapper_result :
    (∀ (env : Env) (a n : String),
        (∃ r, mapHexAddressBody env a n = .ok r ∧ mapHexAddress env a n = r) ∨
        (∃ msg, mapHexAddressBody env a n = .error msg ∧
          mapHexAddress env a n = ⟨n, msg, 0⟩ ∧ (mapHexAddress env a n).line = 0)) ∧
    (∀ (env : Env) (a n : String) (pc : Int) (node version bin sm : String)
        (i : Int) (e : MapErr),
        env.fileExists = true →
        pyIntHex a = some pc →
        env.contractNode = .ok node →
        env.metadataJson = .ok () →
        env.compilerVersion = .ok version →
        env.binRuntime = .ok bin →
        instructionIndexFromHexAddress pc bin = .ok i →
        i ≠ 0 →
        env.srcmapRuntime = .ok sm →
        instructionFromInstructionIndex sm i.toNat = .error e →
        mapHexAddress env a n = ⟨node, errMsg e, 0⟩) := by
  constructor
  · intro env a n
    cases hb : mapHexAddressBody env a n with
    | ok r =>
      left
      exact ⟨r, rfl, by unfold mapHexAddress; rw [hb]⟩
    | error msg =>
      right
      refine ⟨msg, rfl, by unfold mapHexAddress; rw [hb], ?_⟩
      unfold mapHexAddress
      rw [hb]
  · intro env a n pc node version bin sm i e hfile hpy hnode hmeta hver hbin hdis hi0 hsm hres
    unfold mapHexAddress mapHexAddressBody
    simp [hfile, hpy, hnode, hmeta, hver, hbin, hdis, hsm, hres, hi0]

/-- The concrete environment used by the pipeline witnesses: a compiler output
with bytecode `"6080604052"`, runtime source map `"10:5:0"` and one source
file. -/
def env0 : Env :=
  { jsonPath := "out.json"
    fileExists := true
    contractNode := .ok "Demo.sol"
    metadataJson := .ok ()
    compilerVersion := .ok "0.8.24"
    binRuntime := .ok "6080604052"
    srcmapRuntime := .ok "10:5:0"
    sources := .ok [("Demo.sol", 0)]
    metaSources := .ok [("Demo.sol", some ("contract Demo { }").data)] }

/-- Witness for C10: on `env0` with address `"0x2"` the source map has a
single entry but the instruction index is 1, so the inner resolution fails and
is surfaced as a `MapperResult` carrying the contract node and line 0. -/
theorem C10_witness :
    ((∃ r, mapHexAddressBody env0 "0x2" "Demo" = .ok r ∧
        mapHexAddress env0 "0x2" "Demo" = r) ∨
      (∃ msg, mapHexAddressBody env0 "0x2" "Demo" = .error msg ∧
        mapHexAddress env0 "0x2" "Demo" = ⟨"Demo", msg, 0⟩ ∧
        (mapHexAddress env0 "0x2" "Demo").line = 0)) ∧
    mapHexAddress env0 "0x2" "Demo" =
      ⟨"Demo.sol", errMsg (.srcmapIndexOutOfBounds 1 1), 0⟩ :=
  ⟨C10_always_mapper_result.1 env0 "0x2" "Demo",
   C10_always_mapper_result.2 env0 "0x2" "Demo" 2 "Demo.sol" "0.8.24" "6080604052"
     "10:5:0" 1 (.srcmapIndexOutOfBounds 1 1)
     rfl rfl rfl rfl rfl rfl rfl (by decide) rfl rfl⟩

/-- C2 counterexample: with address `"0x0"` (PC 0) on `env0` the disassembler
returns index 0 and `map_hex_address` surfaces the address-not-found error —
the mapping does NOT proceed for a zero input PC, contradicting the claim. -/
theorem C2_ctr_pc_zero :
    pyIntHex "0x0" = some 0 ∧
    instructionIndexFromHexAddress 0 "6080604052" = .ok 0 ∧
    mapHexAddressBody env0 "0x0" "Demo" =
      .error ("Could not find instruction for index 0 in deployedBytecode.object." ++
        "This may happen for an invalid hex address.") ∧
    mapHexAddress env0 "0x0" "Demo" =
      ⟨"Demo", "Could not find instruction for index 0 in deployedBytecode.object." ++
        "This may happen for an invalid hex address.", 0⟩ :=
  ⟨rfl, rfl, rfl, rfl⟩

/-- C2 (as amended): whenever the disassembled instruction index is exactly 0,
`map_hex_address` surfaces the address-not-found error — also when the input
PC was itself 0; the source checks `if instruction_index == 0` without
consulting the input address. -/
theorem C2_index_zero_always_error :
    ∀ (env : Env) (a n : String) (pc : Int) (node version bin : String),
      env.fileExists = true →
      pyIntHex a = some pc →
      env.contractNode = .ok node →
      env.metadataJson = .ok () →
      env.compilerVersion = .ok version →
      env.binRuntime = .ok bin →
      instructionIndexFromHexAddress pc bin = .ok 0 →
      mapHexAddress env a n =
        ⟨n, "Could not find instruction for index 0 in deployedBytecode.object." ++
          "This may happen for an invalid hex address.", 0⟩ := by
  intro env a n pc node version bin hfile hpy hnode hmeta hver hbin hdis
  unfold mapHexAddress mapHexAddressBody
  simp [hfile, hpy, hnode, hmeta, hver, hbin, hdis]

/-- Witness for C2 (amended) at `env0` with PC 0. -/
theorem C2_witness :
    mapHexAddress env0 "0x0" "Demo" =
      ⟨"Demo", "Could not find instruction for index 0 in deployedBytecode.object." ++
        "This may happen for an invalid hex address.", 0⟩ :=
  C2_index_zero_always_error env0 "0x0" "Demo" 0 "Demo.sol" "0.8.24" "6080604052"
    rfl rfl rfl rfl rfl rfl rfl

end SolMap
